import Mathlib

/-!
Shallow embedding of scripts/replace_placeholders.py (the placeholder
replacement tool of the cpp-template repository).

Text is modelled as List Char (Python str, which for this tool is ASCII
throughout: validated names may only contain ASCII letters, digits,
hyphen and underscore, and every literal token in the tool is ASCII).
Python string primitives are modelled as follows:
 - str.replace old new  : replaceAll (single left-to-right non-overlapping scan)
 - old in s             : occursIn
 - str.upper / lower    : py_upper / py_lower (ASCII case mapping)
 - str.capitalize       : capitalize (first char upper-cased, rest lower-cased)
 - re.split on [-_]     : splitSeps
 - re.match of the anchored name pattern : pyFullMatch (the Python dollar
   anchor also matches just before one trailing newline)
-/

namespace ReplacePlaceholders

/-- Character class letter of the regex, ASCII a-z and A-Z. -/
def isLetterChar (c : Char) : Bool :=
  c.isAlpha

/-- Character class of the regex body, ASCII letters, digits, hyphen, underscore. -/
def isNameBodyChar (c : Char) : Bool :=
  c.isAlphanum || c = '_' || c = '-'

/-- Match of the bare pattern letter then zero or more name body chars against a whole string. -/
def matchesNamePattern : List Char → Bool
  | [] => false
  | c :: rest => isLetterChar c && rest.all isNameBodyChar

/-- Python re.match with the anchored pattern of validate_project_name.
The dollar anchor of Python re matches at the end of the string and also
just before a newline that ends the string, so a single trailing newline
is tolerated. -/
def pyFullMatch (s : List Char) : Bool :=
  matchesNamePattern s || (s.getLast? == some '\n' && matchesNamePattern s.dropLast)

/-- Embedding of PlaceholderReplacer._validate_project_name: empty check,
then the regex match, then the length bound, raising ValueError on failure. -/
def validate_project_name (name : List Char) : Except String Unit :=
  if name = [] then
    .error ("Project name cannot be empty")
  else if pyFullMatch name = false then
    .error ("Project name must start with a letter and contain only letters, numbers, hyphens, and underscores")
  else if 50 < name.length then
    .error ("Project name is too long (max 50 characters)")
  else
    .ok ()

/-- Scan of Python str.replace. The fuel argument makes the recursion
structural; every step consumes at least one character of the text, so
with fuel equal to the length of the text the fuel-exhausted arm is never
reached. -/
def replaceAllAux (old new : List Char) : Nat → List Char → List Char
  | _, [] => []
  | 0, s => s
  | fuel + 1, c :: rest =>
    if old.isPrefixOf (c :: rest) ∧ old ≠ [] then
      new ++ replaceAllAux old new fuel (List.drop (old.length - 1) rest)
    else
      c :: replaceAllAux old new fuel rest

/-- Python str.replace: one left-to-right pass replacing every
non-overlapping occurrence of old by new. The tool only ever calls it
with a non-empty old. -/
def replaceAll (old new s : List Char) : List Char :=
  replaceAllAux old new s.length s

/-- Python substring membership old in s. -/
def occursIn (pat : List Char) : List Char → Bool
  | [] => pat.isEmpty
  | c :: rest => pat.isPrefixOf (c :: rest) || occursIn pat rest

/-- Python re.split on the class hyphen-or-underscore: every separator
character splits, adjacent separators produce empty segments. -/
def splitSeps : List Char → List (List Char)
  | [] => [[]]
  | c :: rest =>
    if c = '-' ∨ c = '_' then
      [] :: splitSeps rest
    else
      match splitSeps rest with
      | [] => [[c]]
      | s :: ss => (c :: s) :: ss

/-- Python str.capitalize on ASCII text: first character upper-cased and
every remaining character lower-cased. -/
def capitalize : List Char → List Char
  | [] => []
  | c :: rest => c.toUpper :: rest.map Char.toLower

/-- Embedding of PlaceholderReplacer._to_camel_case: split on hyphen and
underscore, capitalize each segment, concatenate. -/
def to_camel_case (name : List Char) : List Char :=
  ((splitSeps name).map capitalize).flatten

/-- Python str.upper on ASCII text. -/
def py_upper (s : List Char) : List Char :=
  s.map Char.toUpper

/-- Python str.lower on ASCII text. -/
def py_lower (s : List Char) : List Char :=
  s.map Char.toLower

/-- The snake form new_name.replace of hyphen by underscore. -/
def snake_form (name : List Char) : List Char :=
  replaceAll ['-'] ['_'] name

/-- URL key of rule seven. -/
def url_old : List Char :=
  "https://github.com/your-username/cpp-template".toList

/-- URL replacement prefix of rule seven, the f-string before the name. -/
def url_stem : List Char :=
  "https://github.com/your-username/".toList

/-- Embedding of PlaceholderReplacer._generate_replacements: the ordered
list of seven literal (old, new) pairs derived from the new name. Rule six
re-uses the key of rule two with the lower-cased snake form. -/
def generate_replacements (name : List Char) : List (List Char × List Char) :=
  [ ("cpp-template".toList, name),
    ("cpp_template".toList, snake_form name),
    ("CPP-TEMPLATE".toList, py_upper name),
    ("CPP_TEMPLATE".toList, py_upper (snake_form name)),
    ("CppTemplate".toList, to_camel_case name),
    ("cpp_template".toList, py_lower (snake_form name)),
    (url_old, url_stem ++ name) ]

/-- The replacement loop of process_file: fold every rule in list order
over the in-memory buffer. -/
def applyAll (rules : List (List Char × List Char)) (s : List Char) : List Char :=
  rules.foldl (fun acc r => replaceAll r.1 r.2 acc) s

/-- Modelled from the spec wording of the amended CamelCase rule, used only
to compare against to_camel_case: scan the name, dropping separators,
upper-casing the first character of every segment and lower-casing the
rest. The flag records whether the scan stands at the start of a segment. -/
def camelScan (flag : Bool) : List Char → List Char
  | [] => []
  | c :: rest =>
    if c = '-' ∨ c = '_' then
      camelScan true rest
    else
      (if flag then c.toUpper else c.toLower) :: camelScan false rest

/-- Modelled from the spec wording of the amended CamelCase rule: the scan
started at a segment start. -/
def camelSpec (name : List Char) : List Char :=
  camelScan true name

/-- Observable state of one target file on disk: absent, present but
unreadable or undecodable as UTF-8, or present with decodable text. -/
inductive FileState where
  | missing
  | readFailure
  | content (text : List Char)
deriving DecidableEq

/-- Outcome of process_file on one target, mirroring its four print
branches: the missing-file warning, a rewrite, the no-change report, and
the caught per-file exception. -/
inductive FileOutcome where
  | warningMissing
  | updated
  | noChange
  | errorCaught
deriving DecidableEq

/-- Embedding of PlaceholderReplacer.process_file: a missing file yields a
warning and False; a read or decode failure is caught, reported and yields
False; otherwise all rules are applied and the file is rewritten exactly
when the text changed. Returns the outcome and the resulting file state. -/
def process_file (rules : List (List Char × List Char)) :
    FileState → FileOutcome × FileState
  | .missing => (.warningMissing, .missing)
  | .readFailure => (.errorCaught, .readFailure)
  | .content t =>
    let t2 := applyAll rules t
    if t2 = t then (.noChange, .content t) else (.updated, .content t2)

/-- The boolean process_file returns in Python: True only for a rewrite. -/
def outcomeBool : FileOutcome → Bool
  | .updated => true
  | _ => false

/-- The stats dictionary of process_all_files. -/
structure RunStats where
  processed : Nat
  updated : Nat
  errors : Nat
deriving DecidableEq

/-- One iteration of the process_all_files loop: count the file as
processed, count it as updated when process_file returned True, and append
the resulting file state. The errors counter is never touched, exactly as
in the source. -/
def pafStep (rules : List (List Char × List Char))
    (acc : RunStats × List FileState) (fs : FileState) : RunStats × List FileState :=
  let r := process_file rules fs
  ({ acc.1 with
      processed := acc.1.processed + 1,
      updated := acc.1.updated + (if outcomeBool r.1 then 1 else 0) },
   acc.2 ++ [r.2])

/-- Embedding of PlaceholderReplacer.process_all_files: fold the per-file
step over the file list starting from zeroed stats. -/
def process_all_files (rules : List (List Char × List Char))
    (files : List FileState) : RunStats × List FileState :=
  files.foldl (pafStep rules) (⟨0, 0, 0⟩, [])

/-- The fixed target list files_to_process of the constructor. -/
def files_to_process : List String :=
  [ "CMakeLists.txt",
    "README.md",
    "vcpkg.json",
    "tests/CMakeLists.txt",
    "libs/CMakeLists.txt",
    "src/CMakeLists.txt",
    "examples/CMakeLists.txt",
    "docs/CUSTOMIZATION_GUIDE.md",
    "examples/usage_scenarios.cpp" ]

/-- Observable state of the project root: the target files keyed by their
relative path (a path absent from the list is a missing file), and the
reserved backup directory with its copied files. Metadata such as
timestamps is not modelled; a file left without a write keeps its state. -/
structure World where
  files : List (String × FileState)
  backupDirExists : Bool
  backupFiles : List (String × FileState)
deriving DecidableEq

/-- State of one target path in a world, missing when the path is absent. -/
def getFile (w : World) (p : String) : FileState :=
  (w.files.lookup p).getD .missing

/-- Overwrite of one target path in a world. -/
def setFile (w : World) (p : String) (fs : FileState) : World :=
  { w with files := w.files.map (fun e => if e.1 = p then (p, fs) else e) }

/-- The copies create_backup takes: every target that exists on disk,
keyed by its relative path, byte-copied from the current world. -/
def backup_snapshot (w : World) : List (String × FileState) :=
  files_to_process.filterMap (fun p =>
    match getFile w p with
    | .missing => none
    | fs => some (p, fs))

/-- Embedding of PlaceholderReplacer.create_backup: a no-op when backup is
disabled; otherwise any previous backup tree is removed, the directory is
recreated, and every existing target is copied in, all before any
replacement work. -/
def create_backup (doBackup : Bool) (w : World) : World :=
  if doBackup then
    { w with backupDirExists := true, backupFiles := backup_snapshot w }
  else
    w

/-- One iteration of the process_all_files loop acting on a world: the
target is looked up on disk, processed, counted, and written back only
when process_file rewrote it. -/
def pwStep (rules : List (List Char × List Char))
    (acc : RunStats × World) (p : String) : RunStats × World :=
  let r := process_file rules (getFile acc.2 p)
  ({ acc.1 with
      processed := acc.1.processed + 1,
      updated := acc.1.updated + (if outcomeBool r.1 then 1 else 0) },
   if r.1 = .updated then setFile acc.2 p r.2 else acc.2)

/-- The process_all_files loop acting on a world, over the fixed targets. -/
def process_world (rules : List (List Char × List Char)) (w : World) :
    RunStats × World :=
  files_to_process.foldl (pwStep rules) (⟨0, 0, 0⟩, w)

/-- Embedding of PlaceholderReplacer.run restricted to the parts the spec
claims concern: the backup step runs to completion first, then the
replacement pass; the directory relocation and report that follow touch
neither the targets of the pass nor the backup. -/
def run_replacer (doBackup : Bool) (rules : List (List Char × List Char))
    (w : World) : RunStats × World :=
  process_world rules (create_backup doBackup w)

/-- Result of the CLI driver: either the dry-run preview carrying the
derived rule list and target count, or the stats of a completed run. -/
inductive MainResult where
  | dryRunPreview (rules : List (List Char × List Char)) (targetCount : Nat)
  | completed (stats : RunStats)
deriving DecidableEq

/-- Embedding of main: after the root and build-descriptor existence
checks, dry-run forces backup off, the replacer is constructed (validating
the name), and then either the preview is printed without touching the
world, or the full run executes. The interactive confirmation prompt is
CLI glue and is not modelled. -/
def main_model (name : List Char) (dryRun noBackup : Bool) (w : World) :
    Except String (MainResult × World) :=
  if getFile w ("CMakeLists.txt") = .missing then
    .error ("No CMakeLists.txt found")
  else
    match validate_project_name name with
    | .error e => .error e
    | .ok _ =>
      let rules := generate_replacements name
      if dryRun then
        .ok (.dryRunPreview rules files_to_process.length, w)
      else
        let r := run_replacer (!noBackup) rules w
        .ok (.completed r.1, r.2)

/-! Helper lemmas about the string primitives. -/

theorem isPrefixOf_self (l : List Char) : l.isPrefixOf l = true := by
  induction l with
  | nil => rfl
  | cons c rest ih => simp [List.isPrefixOf, ih]

theorem replaceAllAux_nil (old new : List Char) (fuel : Nat) :
    replaceAllAux old new fuel [] = [] := by
  cases fuel <;> rfl

theorem replaceAllAux_no_occurrence (old new : List Char) :
    ∀ (fuel : Nat) (s : List Char), occursIn old s = false →
      replaceAllAux old new fuel s = s := by
  intro fuel
  induction fuel with
  | zero => intro s h; cases s <;> rfl
  | succ n ih =>
    intro s h
    cases s with
    | nil => rfl
    | cons c rest =>
      rw [occursIn, Bool.or_eq_false_iff] at h
      rw [replaceAllAux, if_neg]
      · rw [ih rest h.2]
      · intro hcon
        exact Bool.false_ne_true (h.1 ▸ hcon.1)

theorem replaceAll_no_occurrence (old new s : List Char)
    (h : occursIn old s = false) : replaceAll old new s = s :=
  replaceAllAux_no_occurrence old new s.length s h

theorem replaceAll_whole (old new : List Char) (h : old ≠ []) :
    replaceAll old new old = new := by
  cases old with
  | nil => exact absurd rfl h
  | cons c rest =>
    show replaceAllAux (c :: rest) new (c :: rest).length (c :: rest) = new
    rw [List.length_cons, replaceAllAux, if_pos ⟨isPrefixOf_self (c :: rest), h⟩]
    have hd : (c :: rest).length - 1 = rest.length := by simp
    rw [hd, List.drop_length, replaceAllAux_nil, List.append_nil]

theorem applyAll_fixed (rules : List (List Char × List Char)) (s : List Char)
    (h : ∀ r ∈ rules, occursIn r.1 s = false) : applyAll rules s = s := by
  induction rules with
  | nil => rfl
  | cons r rs ih =>
    simp only [applyAll, List.foldl_cons]
    rw [replaceAll_no_occurrence _ _ _ (h r (List.mem_cons_self r rs))]
    exact ih fun q hq => h q (List.mem_cons_of_mem r hq)

theorem splitSeps_ne_nil (s : List Char) : splitSeps s ≠ [] := by
  cases s with
  | nil => simp [splitSeps]
  | cons c rest =>
    simp only [splitSeps]
    split
    · simp
    · split <;> simp

theorem camelScan_pipeline (s : List Char) :
    camelScan true s = ((splitSeps s).map capitalize).flatten ∧
    camelScan false s =
      (match splitSeps s with
       | [] => []
       | seg :: ss => seg.map Char.toLower ++ ((ss.map capitalize).flatten)) := by
  induction s with
  | nil => constructor <;> simp [camelScan, splitSeps, capitalize]
  | cons c rest ih =>
    by_cases hc : c = '-' ∨ c = '_'
    · constructor
      · simp [camelScan, splitSeps, hc, capitalize, ih.1]
      · simp [camelScan, splitSeps, hc, ih.1]
    · obtain ⟨s0, ss, hsplit⟩ : ∃ s0 ss, splitSeps rest = s0 :: ss := by
        cases h : splitSeps rest with
        | nil => exact absurd h (splitSeps_ne_nil rest)
        | cons a b => exact ⟨a, b, rfl⟩
      have ihf := ih.2
      rw [hsplit] at ihf
      constructor
      · simp [camelScan, splitSeps, hc, hsplit, capitalize, ihf]
      · simp [camelScan, splitSeps, hc, hsplit, ihf]

/-! Helper lemmas about the per-file loop and its counters. -/

theorem paf_foldl_processed (rules : List (List Char × List Char))
    (files : List FileState) :
    ∀ init, (files.foldl (pafStep rules) init).1.processed =
      init.1.processed + files.length := by
  induction files with
  | nil => intro init; simp
  | cons f fs ih =>
    intro init
    rw [List.foldl_cons, ih]
    simp [pafStep]
    omega

theorem paf_foldl_updated (rules : List (List Char × List Char))
    (files : List FileState) :
    ∀ init, (files.foldl (pafStep rules) init).1.updated =
      init.1.updated + files.countP (fun f => outcomeBool (process_file rules f).1) := by
  induction files with
  | nil => intro init; simp
  | cons f fs ih =>
    intro init
    rw [List.foldl_cons, ih]
    cases hb : outcomeBool (process_file rules f).1
    all_goals simp [pafStep, hb, List.countP_cons]
    all_goals omega

theorem paf_foldl_errors (rules : List (List Char × List Char))
    (files : List FileState) :
    ∀ init, (files.foldl (pafStep rules) init).1.errors = init.1.errors := by
  induction files with
  | nil => intro init; rfl
  | cons f fs ih =>
    intro init
    rw [List.foldl_cons, ih]
    simp [pafStep]

theorem pwStep_backupFiles (rules : List (List Char × List Char))
    (acc : RunStats × World) (p : String) :
    (pwStep rules acc p).2.backupFiles = acc.2.backupFiles := by
  simp only [pwStep, setFile]
  split <;> rfl

theorem pwStep_backupDirExists (rules : List (List Char × List Char))
    (acc : RunStats × World) (p : String) :
    (pwStep rules acc p).2.backupDirExists = acc.2.backupDirExists := by
  simp only [pwStep, setFile]
  split <;> rfl

theorem pw_foldl_backup (rules : List (List Char × List Char))
    (ps : List String) :
    ∀ acc, ((ps.foldl (pwStep rules) acc).2.backupFiles = acc.2.backupFiles ∧
      (ps.foldl (pwStep rules) acc).2.backupDirExists = acc.2.backupDirExists) := by
  induction ps with
  | nil => intro acc; exact ⟨rfl, rfl⟩
  | cons p ps ih =>
    intro acc
    rw [List.foldl_cons]
    refine ⟨?_, ?_⟩
    · rw [(ih (pwStep rules acc p)).1, pwStep_backupFiles]
    · rw [(ih (pwStep rules acc p)).2, pwStep_backupDirExists]

/-! Claim theorems. -/

/-- C1: the spec requires a read or decode failure of one target to
increment the errors counter of the returned stats by one while the run
continues; in the code the except branch of process_file only prints and
returns False, so the errors counter of process_all_files is zero on every
run, even though every file, failing ones included, is still processed and
the run never aborts. The theorem evaluates the engine on a run whose
first target fails to read: both files are processed, the second one is
still rewritten, and the errors counter stays zero where the spec demands
one. -/
theorem errors_counter_never_incremented :
    ((process_all_files (generate_replacements ("my-lib".toList))
        [FileState.readFailure, FileState.content ("cpp-template".toList)]).1.errors = 0 ∧
      (process_all_files (generate_replacements ("my-lib".toList))
        [FileState.readFailure, FileState.content ("cpp-template".toList)]).1.processed = 2 ∧
      (process_all_files (generate_replacements ("my-lib".toList))
        [FileState.readFailure, FileState.content ("cpp-template".toList)]).1.updated = 1) ∧
    ∀ (rules : List (List Char × List Char)) (files : List FileState),
      (process_all_files rules files).1.errors = 0 ∧
      (process_all_files rules files).1.processed = files.length := by
  constructor
  · exact ⟨by decide, by decide, by decide⟩
  · intro rules files
    refine ⟨paf_foldl_errors rules files _, ?_⟩
    have h := paf_foldl_processed rules files (⟨0, 0, 0⟩, [])
    simpa [process_all_files] using h

/-- C2 counterexample: the claim says the CamelCase form leaves the
remainder of each segment untouched, predicting MyABCLib for the name
myABC-lib; the code uses Python str.capitalize, which lower-cases the
remainder, producing MyabcLib. -/
theorem camel_case_remainder_counterexample :
    to_camel_case ("myABC-lib".toList) = "MyabcLib".toList ∧
    "MyabcLib".toList ≠ "MyABCLib".toList := by
  constructor
  · decide
  · decide

/-- C2 amended: the CamelCase replacement text equals the concatenation of
the hyphen or underscore separated segments of the name, each with its
first character upper-cased and the remainder of the segment lower-cased
(Python str.capitalize semantics). camelSpec is the amended specification
written as an independent left-to-right scan, and the code's
to_camel_case agrees with it on every name. -/
theorem to_camel_case_eq_camelSpec (name : List Char) :
    to_camel_case name = camelSpec name :=
  ((camelScan_pipeline name).1).symm

/-- C3 counterexample: the claim says the later duplicate rule wins, so an
occurrence of the snake base-token should become the lower-cased snake
form of the name; for the validated name MyLib the engine produces MyLib
(rule two fires first and consumes the occurrence), not the lower-cased
mylib that the claim predicts. -/
theorem snake_shadowing_counterexample :
    applyAll (generate_replacements ("MyLib".toList)) ("cpp_template".toList) =
      "MyLib".toList ∧
    py_lower (snake_form ("MyLib".toList)) = "mylib".toList ∧
    "MyLib".toList ≠ "mylib".toList := by
  refine ⟨by decide, by decide, by decide⟩

/-- C3 amended: because replacement is a sequential scan over the buffer,
the EARLIER rule two wins for the snake base-token: an occurrence of
cpp_template is replaced by the case-preserving snake form of the name,
and rule six only matters when an earlier replacement reintroduces the
token. The hypotheses state that the snake form does not itself contain
any of the later rule keys. -/
theorem snake_rule_two_wins (name : List Char)
    (h3 : occursIn ("CPP-TEMPLATE".toList) (snake_form name) = false)
    (h4 : occursIn ("CPP_TEMPLATE".toList) (snake_form name) = false)
    (h5 : occursIn ("CppTemplate".toList) (snake_form name) = false)
    (h6 : occursIn ("cpp_template".toList) (snake_form name) = false)
    (h7 : occursIn url_old (snake_form name) = false) :
    applyAll (generate_replacements name) ("cpp_template".toList) =
      snake_form name := by
  simp only [applyAll, generate_replacements, List.foldl_cons, List.foldl_nil]
  rw [replaceAll_no_occurrence ("cpp-template".toList) name ("cpp_template".toList) (by decide),
    replaceAll_whole ("cpp_template".toList) (snake_form name) (by decide),
    replaceAll_no_occurrence ("CPP-TEMPLATE".toList) (py_upper name) (snake_form name) h3,
    replaceAll_no_occurrence ("CPP_TEMPLATE".toList) (py_upper (snake_form name)) (snake_form name) h4,
    replaceAll_no_occurrence ("CppTemplate".toList) (to_camel_case name) (snake_form name) h5,
    replaceAll_no_occurrence ("cpp_template".toList) (py_lower (snake_form name)) (snake_form name) h6,
    replaceAll_no_occurrence url_old (url_stem ++ name) (snake_form name) h7]

/-- C3 witness: the amended theorem applied to the concrete name AbC-x. -/
theorem snake_rule_two_wins_witness :
    applyAll (generate_replacements ("AbC-x".toList)) ("cpp_template".toList) =
      snake_form ("AbC-x".toList) :=
  snake_rule_two_wins ("AbC-x".toList)
    (by decide) (by decide) (by decide) (by decide) (by decide)

/-- C4 counterexample: the claim restricts the names only by forbidding
the literal base-token cpp-template inside the name; the validated name
cpp_template2 avoids it, yet its snake form reintroduces cpp_template, so
the second pass changes the text again and the pass is not idempotent. -/
theorem idempotence_counterexample :
    validate_project_name ("cpp_template2".toList) = .ok () ∧
    occursIn ("cpp-template".toList) ("cpp_template2".toList) = false ∧
    applyAll (generate_replacements ("cpp_template2".toList))
        (applyAll (generate_replacements ("cpp_template2".toList))
          ("cpp_template".toList)) ≠
      applyAll (generate_replacements ("cpp_template2".toList))
        ("cpp_template".toList) :=
  ⟨rfl, by decide, by decide⟩

/-- C4 amended: the second run of the full pass is a no-op provided the
once-replaced text contains no remaining occurrence of any rule match
text; the name condition of the claim is not sufficient, since a
replacement value derived from the name can reintroduce a match text. -/
theorem second_pass_is_noop (name F : List Char)
    (h : ((generate_replacements name).all
        (fun r => !occursIn r.1 (applyAll (generate_replacements name) F))) = true) :
    applyAll (generate_replacements name) (applyAll (generate_replacements name) F) =
      applyAll (generate_replacements name) F := by
  apply applyAll_fixed
  intro r hr
  have hb := List.all_eq_true.mp h r hr
  simpa using hb

/-- C4 witness: the amended theorem applied to the name my-project and a
file text containing the base-token; the once-replaced text contains no
rule key, so the second pass changes nothing. -/
theorem second_pass_is_noop_witness :
    ((generate_replacements ("my-project".toList)).all
        (fun r => !occursIn r.1
          (applyAll (generate_replacements ("my-project".toList))
            ("hello cpp-template".toList)))) = true ∧
    applyAll (generate_replacements ("my-project".toList))
        (applyAll (generate_replacements ("my-project".toList))
          ("hello cpp-template".toList)) =
      applyAll (generate_replacements ("my-project".toList))
        ("hello cpp-template".toList) :=
  ⟨by decide, second_pass_is_noop ("my-project".toList) ("hello cpp-template".toList) (by decide)⟩

/-- C5 counterexample: the claim says validation fails for every string
containing a character outside the class letters, digits, hyphen,
underscore; the string a followed by a newline contains the newline, which
is outside the class, yet validation succeeds, because the dollar anchor
of Python re also matches just before a trailing newline. -/
theorem validate_newline_counterexample :
    validate_project_name ("a\n".toList) = .ok () ∧
    '\n' ∈ "a\n".toList ∧ isNameBodyChar '\n' = false :=
  ⟨rfl, by decide, by decide⟩

/-- C5 amended: validation succeeds if and only if the candidate has
length at most 50 and either the whole string, or the string minus a
single trailing newline, is a letter followed by characters from the
class letters, digits, hyphen, underscore. -/
theorem validate_ok_iff (s : List Char) :
    validate_project_name s = .ok () ↔
      (s.length ≤ 50 ∧
        (matchesNamePattern s = true ∨
          ∃ t, s = t ++ ['\n'] ∧ matchesNamePattern t = true)) := by
  constructor
  · intro h
    unfold validate_project_name at h
    split_ifs at h with h1 h2 h3
    refine ⟨by omega, ?_⟩
    have hm : pyFullMatch s = true := by
      cases hb : pyFullMatch s
      · exact absurd hb h2
      · rfl
    rw [pyFullMatch, Bool.or_eq_true] at hm
    rcases hm with hm | hm
    · exact Or.inl hm
    · rw [Bool.and_eq_true] at hm
      have hlast : s.getLast? = some '\n' := by
        have hb := hm.1
        rwa [beq_iff_eq] at hb
      refine Or.inr ⟨s.dropLast, ?_, hm.2⟩
      have hgl := List.getLast?_eq_getLast_of_ne_nil (l := s) h1
      rw [hgl] at hlast
      have hc : s.getLast h1 = '\n' := Option.some.inj hlast
      rw [← hc]
      exact (List.dropLast_append_getLast h1).symm
  · rintro ⟨hlen, hcase⟩
    have hne : s ≠ [] := by
      rcases hcase with hm | ⟨t, ht, hm⟩
      · intro hnil
        rw [hnil] at hm
        exact absurd hm (by decide)
      · rw [ht]; simp
    have hmatch : pyFullMatch s = true := by
      rcases hcase with hm | ⟨t, ht, hm⟩
      · rw [pyFullMatch, hm]
        rfl
      · subst ht
        rw [pyFullMatch]
        have ha : (t ++ ['\n']).getLast? = some '\n' := by simp
        have hb : (t ++ ['\n']).dropLast = t := by simp
        rw [ha, hb, hm]
        simp
    have h50 : ¬ 50 < s.length := by omega
    simp [validate_project_name, hne, hmatch, h50]

/-- C6: a target with readable content is rewritten exactly when applying
all rules in order changes the text; when the rules leave the text
identical the outcome is the no-change report and the file keeps its
state, no write occurring. -/
theorem process_file_rewrites_iff_changed (rules : List (List Char × List Char))
    (t : List Char) :
    ((process_file rules (.content t)).1 = .updated ↔ applyAll rules t ≠ t) ∧
    ((process_file rules (.content t)).1 = .noChange ↔ applyAll rules t = t) ∧
    (process_file rules (.content t)).2 = .content (applyAll rules t) := by
  by_cases h : applyAll rules t = t <;> simp [process_file, h]

/-- C6 witness: the theorem applied to a concrete changed file. -/
theorem process_file_rewrites_iff_changed_witness :
    (process_file (generate_replacements ("my-lib".toList))
        (FileState.content ("say cpp-template".toList))).1 = FileOutcome.updated :=
  (process_file_rewrites_iff_changed (generate_replacements ("my-lib".toList))
      ("say cpp-template".toList)).1.mpr (by decide)

/-- C7: in a run with backup enabled, after the whole run the backup
directory exists and holds exactly the copies of the targets that existed
in the pre-run world, with their pre-replacement contents, whatever the
replacement pass wrote afterwards and whatever an earlier backup tree
held: the backup is captured in full, from the unmutated world, before
the replacement pass writes anything. -/
theorem backup_taken_before_replacement (rules : List (List Char × List Char))
    (w : World) :
    (run_replacer true rules w).2.backupDirExists = true ∧
    (run_replacer true rules w).2.backupFiles = backup_snapshot w := by
  unfold run_replacer process_world
  refine ⟨?_, ?_⟩
  · rw [(pw_foldl_backup rules files_to_process (⟨0, 0, 0⟩, create_backup true w)).2]
    simp [create_backup]
  · rw [(pw_foldl_backup rules files_to_process (⟨0, 0, 0⟩, create_backup true w)).1]
    simp [create_backup]

/-- C8: with the dry-run flag, whatever the no-backup flag, the driver
validates the name, derives the rule list, and reports it with the target
count nine, while the world is returned exactly as it was: no file is
modified and no backup directory is created. -/
theorem dry_run_no_mutation (name : List Char) (noBackup : Bool) (w : World)
    (hc : getFile w ("CMakeLists.txt") ≠ FileState.missing)
    (hv : validate_project_name name = .ok ()) :
    main_model name true noBackup w =
      .ok (.dryRunPreview (generate_replacements name) 9, w) := by
  unfold main_model
  rw [if_neg hc, hv]
  rfl

/-- C8 witness: a dry run over a one-file world with the no-backup flag
set leaves the world untouched. -/
theorem dry_run_no_mutation_witness :
    main_model ("my-lib".toList) true true
        (World.mk [("CMakeLists.txt", FileState.content ("x".toList))] false []) =
      .ok (.dryRunPreview (generate_replacements ("my-lib".toList)) 9,
        World.mk [("CMakeLists.txt", FileState.content ("x".toList))] false []) :=
  dry_run_no_mutation ("my-lib".toList) true
    (World.mk [("CMakeLists.txt", FileState.content ("x".toList))] false [])
    (by decide) rfl

/-- C9: a missing target is counted in processed, yields the warning
outcome rather than the caught-error outcome, contributes False to the
update count, and the loop still processes every target of the list. -/
theorem missing_target_not_updated (rules : List (List Char × List Char))
    (files : List FileState) (i : Nat) (h : i < files.length)
    (hm : files.get ⟨i, h⟩ = FileState.missing) :
    (process_all_files rules files).1.processed = files.length ∧
    (process_all_files rules files).1.updated =
      files.countP (fun f => outcomeBool (process_file rules f).1) ∧
    (process_file rules (files.get ⟨i, h⟩)).1 = FileOutcome.warningMissing ∧
    outcomeBool (process_file rules (files.get ⟨i, h⟩)).1 = false := by
  refine ⟨?_, ?_, ?_, ?_⟩
  · have hp := paf_foldl_processed rules files (⟨0, 0, 0⟩, [])
    simpa [process_all_files] using hp
  · have hu := paf_foldl_updated rules files (⟨0, 0, 0⟩, [])
    simpa [process_all_files] using hu
  · rw [hm]
    rfl
  · rw [hm]
    rfl

/-- C9 witness: the theorem applied to a one-element run on a missing
target. -/
theorem missing_target_not_updated_witness :
    (process_all_files (generate_replacements ("demo".toList))
        [FileState.missing]).1.processed = 1 ∧
    (process_file (generate_replacements ("demo".toList))
        FileState.missing).1 = FileOutcome.warningMissing := by
  have h := missing_target_not_updated (generate_replacements ("demo".toList))
    [FileState.missing] 0 (by decide) rfl
  exact ⟨h.1, h.2.2.1⟩

/-- C10: the validator accepts some strings containing a character outside
the class letters, digits, hyphen, underscore: any string of length at
most 49 matching the bare name pattern is still accepted after a single
newline is appended, because the dollar anchor of Python re also matches
just before a trailing newline. -/
theorem trailing_newline_accepted (s : List Char)
    (h1 : s.length ≤ 49) (h2 : matchesNamePattern s = true) :
    validate_project_name (s ++ ['\n']) = .ok () ∧ isNameBodyChar '\n' = false := by
  refine ⟨?_, by decide⟩
  have hne : s ++ ['\n'] ≠ [] := by simp
  have hmatch : pyFullMatch (s ++ ['\n']) = true := by
    rw [pyFullMatch]
    have ha : (s ++ ['\n']).getLast? = some '\n' := by simp
    have hb : (s ++ ['\n']).dropLast = s := by simp
    rw [ha, hb, h2]
    simp
  have h50 : ¬ 50 < (s ++ ['\n']).length := by
    simp only [List.length_append, List.length_singleton]
    omega
  simp [validate_project_name, hne, hmatch, h50]
  omega

/-- C10 witness: the theorem applied to the name my-lib. -/
theorem trailing_newline_accepted_witness :
    validate_project_name ("my-lib".toList ++ ['\n']) = .ok () ∧
    isNameBodyChar '\n' = false :=
  trailing_newline_accepted ("my-lib".toList) (by decide) (by decide)

end ReplacePlaceholders
